import Mathlib

/-!
Verification of the feature data model and tessellation engine of the
itowns-vector repository.

The JavaScript sources embedded here are:
* `src/Core/Feature.js` — `FeatureGeometry`, `Feature`, `FeatureCollection`
  and the private helper `_extendBuffer`;
* the mesh conversion module (`featureToLine`, `featureToPolygon`,
  `featureToExtrudedPolygon`, `addExtrudedPolygonSideFaces`, `featureToMesh`);
* the GeoJSON population path (`populateGeometry`), which drives
  `startSubGeometry` / `pushCoordinates`.

Buffers are modelled by their length bookkeeping (the numeric contents of the
vertex buffer play no role in any verified property), geometries by their
`indices` lists of `{offset, count}` records, and the external collaborators
(earcut triangulation, style resolution, `Math.random`) by explicit function
parameters.
-/

namespace Itowns

/-- One `SubGeometryIndex` record `{offset, count}` of `FeatureGeometry.indices`
(the `extent` member is omitted: no verified property reads it). -/
structure SubIdx where
  offset : Nat
  count : Nat
deriving DecidableEq, Repr

/-- Bookkeeping state of a `Feature`: `size` (2 or 3, from the collection
structure), the lengths of the `vertices` and optional `normals` arrays, the
write cursor `_pos`, and the `indices` list of every bound `FeatureGeometry`. -/
structure FeatureS where
  size : Nat
  verticesLen : Nat
  normalsLen : Option Nat
  pos : Nat
  geoms : List (List SubIdx)
deriving DecidableEq, Repr

/-- Collection size: `options.structure == '3d' ? 3 : 2` (FeatureCollection
constructor). -/
def collectionSize (is3d : Bool) : Nat := if is3d then 3 else 2

/-- Feature constructor bookkeeping: empty `vertices`, `normals = []` exactly
when the collection size is 3 (`collection.size == 3 ? [] : undefined`),
`_pos = 0`, no geometries. -/
def mkFeature (csize : Nat) : FeatureS :=
  { size := csize
    verticesLen := 0
    normalsLen := if csize = 3 then some 0 else none
    pos := 0
    geoms := [] }

/-- Source `_extendBuffer(feature, size)`: grows `vertices.length` by
`count * feature.size` and, when `normals` exists, sets `normals.length`
to the new `vertices.length`. -/
def _extendBuffer (f : FeatureS) (count : Nat) : FeatureS :=
  let v := f.verticesLen + count * f.size
  { f with verticesLen := v, normalsLen := f.normalsLen.map fun _ => v }

/-- Offset computation of `startSubGeometry`: end of the previous range when
one exists, otherwise `feature.vertices.length / this.size`. -/
def startOffset (f : FeatureS) (idxs : List SubIdx) : Nat :=
  match idxs.getLast? with
  | some last => last.offset + last.count
  | none => f.verticesLen / f.size

/-- Source `FeatureGeometry.startSubGeometry(count, feature)` acting on the
geometry of index `gi`: records a new `{offset, count}` entry, then extends
the parent feature buffer by `count` vertices. -/
def startSub (gi count : Nat) (f : FeatureS) : FeatureS :=
  match f.geoms[gi]? with
  | none => f
  | some idxs =>
    _extendBuffer
      { f with geoms := f.geoms.set gi (idxs ++ [⟨startOffset f idxs, count⟩]) } count

/-- Source `FeatureGeometry.closeSubGeometry(count, feature)` acting on the
geometry of index `gi`: records a new entry whose offset is the end of the
previous range when one exists, otherwise `vertices.length / size - count`;
the buffer is not extended. -/
def closeSub (gi count : Nat) (f : FeatureS) : FeatureS :=
  match f.geoms[gi]? with
  | none => f
  | some idxs =>
    let offset :=
      match idxs.getLast? with
      | some last => last.offset + last.count
      | none => f.verticesLen / f.size - count
    { f with geoms := f.geoms.set gi (idxs ++ [⟨offset, count⟩]) }

/-- Bookkeeping effect of `pushCoordinates` / `pushCoordinatesValues`: when
`normals` exists, `toArray(normals, _pos)` writes three slots at `_pos`;
then `_pushValues` writes three slots (`size == 3`) or two (`otherwise`) at
`_pos`, advancing it. A JavaScript array write at index `k` makes the length
`max length (k+1)`. -/
def pushValues (f : FeatureS) : FeatureS :=
  let nl := f.normalsLen.map fun n => max n (f.pos + 3)
  let stride := if f.size = 3 then 3 else 2
  { f with
    normalsLen := nl
    verticesLen := max f.verticesLen (f.pos + stride)
    pos := f.pos + stride }

/-- Source `Feature.bindNewGeometry()`: appends a fresh `FeatureGeometry`
(empty `indices`). -/
def bindNewGeometry (f : FeatureS) : FeatureS :=
  { f with geoms := f.geoms ++ [[]] }

/-- One population-phase call against a feature: binding a new geometry,
starting or closing a sub geometry on the geometry of index `gi`, or pushing
one coordinate. -/
inductive PopOp where
  | bind : PopOp
  | start (gi count : Nat) : PopOp
  | close (gi count : Nat) : PopOp
  | push : PopOp
deriving DecidableEq, Repr

def applyOp (f : FeatureS) : PopOp → FeatureS
  | .bind => bindNewGeometry f
  | .start gi count => startSub gi count f
  | .close gi count => closeSub gi count f
  | .push => pushValues f

def applyOps (f : FeatureS) (ops : List PopOp) : FeatureS :=
  ops.foldl applyOp f

/-- Iterated `pushCoordinates`. -/
def pushN : Nat → FeatureS → FeatureS
  | 0, f => f
  | n + 1, f => pushN n (pushValues f)

/-- Index of the most recently bound geometry. -/
def lastGi (f : FeatureS) : Nat := f.geoms.length - 1

/-- One ring population, as the GeoJSON `populateGeometry` drives it:
`startSubGeometry(coordinates.length)` followed by one `pushCoordinates`
per coordinate, on the last bound geometry. -/
def populateSub (f : FeatureS) (count : Nat) : FeatureS :=
  pushN count (startSub (lastGi f) count f)

/-- One geometry population: `bindNewGeometry` then one ring population per
ring (a polygon pushes one ring per contour or hole). -/
def populateGeom (f : FeatureS) (counts : List Nat) : FeatureS :=
  counts.foldl populateSub (bindNewGeometry f)

/-- Whole feature population from the constructor state. -/
def populateFeature (csize : Nat) (blocks : List (List Nat)) : FeatureS :=
  blocks.foldl populateGeom (mkFeature csize)

/-- Sum of the `count` fields of one geometry's `indices`. -/
def geomTotal (idxs : List SubIdx) : Nat := (idxs.map SubIdx.count).sum

/-- Total vertex count declared by all `SubGeometryIndex` entries of a
feature. -/
def totalCount (f : FeatureS) : Nat := (f.geoms.map geomTotal).sum

/-! Bookkeeping invariant maintained by the canonical population path. -/

/-- Population invariant: the size comes from a collection (2 or 3), the write
cursor sits at the end of the reserved buffer, the buffer length is `size`
times the declared vertex count, and the normal buffer exists exactly for
size 3 with the same length. -/
def C1Inv (f : FeatureS) : Prop :=
  (f.size = 2 ∨ f.size = 3) ∧
  f.pos = f.verticesLen ∧
  f.verticesLen = f.size * totalCount f ∧
  f.normalsLen = (if f.size = 3 then some f.verticesLen else none)

theorem getElem?_append_last {α : Type} (gs : List α) (c : α) :
    (gs ++ [c])[gs.length]? = some c := by
  induction gs with
  | nil => rfl
  | cons x xs ih =>
    simp only [List.cons_append, List.length_cons, List.getElem?_cons_succ]
    exact ih

theorem set_append_last {α : Type} (gs : List α) (c d : α) :
    (gs ++ [c]).set gs.length d = gs ++ [d] := by
  induction gs with
  | nil => rfl
  | cons x xs ih => simp [List.set, ih]

/-- A coordinate push that stays within the reserved buffer space only moves
the write cursor. -/
theorem pushValues_of_room (f : FeatureS)
    (hroom : f.pos + (if f.size = 3 then 3 else 2) ≤ f.verticesLen)
    (hn : f.normalsLen = none ∨ (f.size = 3 ∧ f.normalsLen = some f.verticesLen)) :
    pushValues f = { f with pos := f.pos + if f.size = 3 then 3 else 2 } := by
  rcases hn with hn | ⟨h3, hn⟩
  · simp [pushValues, hn, Nat.max_eq_left hroom]
  · have hroom3 : f.pos + 3 ≤ f.verticesLen := by simpa [h3] using hroom
    simp [pushValues, hn, h3, Nat.max_eq_left hroom3]

/-- Iterated pushes within the reserved buffer space only move the write
cursor. -/
theorem pushN_of_room (k : Nat) (f : FeatureS)
    (hroom : f.pos + k * (if f.size = 3 then 3 else 2) ≤ f.verticesLen)
    (hn : f.normalsLen = none ∨ (f.size = 3 ∧ f.normalsLen = some f.verticesLen)) :
    pushN k f = { f with pos := f.pos + k * (if f.size = 3 then 3 else 2) } := by
  induction k generalizing f with
  | zero => simp [pushN]
  | succ k ih =>
    rw [Nat.succ_mul] at hroom
    have hs : f.pos + (if f.size = 3 then 3 else 2) ≤ f.verticesLen := by omega
    have h1 : pushValues f = { f with pos := f.pos + if f.size = 3 then 3 else 2 } :=
      pushValues_of_room f hs hn
    have h3 := ih { f with pos := f.pos + if f.size = 3 then 3 else 2 }
      (show f.pos + (if f.size = 3 then 3 else 2) +
          k * (if f.size = 3 then 3 else 2) ≤ f.verticesLen by omega)
      hn
    rw [show pushN (k + 1) f = pushN k (pushValues f) from rfl, h1, h3]
    simp only [FeatureS.mk.injEq, Nat.succ_mul]
    refine ⟨by trivial, by trivial, by trivial, by omega, by trivial⟩

/-- Effect of `startSubGeometry` on the last bound geometry, written with the
geometry list in explicit `init ++ [current]` form. -/
theorem startSub_last (gs : List (List SubIdx)) (cur : List SubIdx) (count : Nat)
    (f : FeatureS) (hg : f.geoms = gs ++ [cur]) :
    startSub (lastGi f) count f =
      { f with
        geoms := gs ++ [cur ++ [⟨startOffset f cur, count⟩]]
        verticesLen := f.verticesLen + count * f.size
        normalsLen := f.normalsLen.map fun _ => f.verticesLen + count * f.size } := by
  have hl : lastGi f = gs.length := by
    simp [lastGi, hg]
  rw [startSub, hl, hg, getElem?_append_last]
  simp only [_extendBuffer, hg, set_append_last]

theorem totalCount_append_entry (f : FeatureS) (gs : List (List SubIdx))
    (cur : List SubIdx) (e : SubIdx) (hg : f.geoms = gs ++ [cur]) :
    (f.geoms.map geomTotal).sum + e.count = ((gs ++ [cur ++ [e]]).map geomTotal).sum := by
  simp [hg, geomTotal]
  ring

/-- One ring population preserves the bookkeeping invariant. -/
theorem populateSub_inv (f : FeatureS) (count : Nat)
    (hInv : C1Inv f) (hne : f.geoms ≠ []) :
    C1Inv (populateSub f count) ∧ (populateSub f count).geoms ≠ [] ∧
      (populateSub f count).size = f.size := by
  obtain ⟨hsize, hpos, hlen, hnorm⟩ := hInv
  have hg : f.geoms = f.geoms.dropLast ++ [f.geoms.getLast hne] :=
    (List.dropLast_append_getLast hne).symm
  set gs := f.geoms.dropLast
  set cur := f.geoms.getLast hne
  have hstart := startSub_last gs cur count f hg
  set e : SubIdx := ⟨startOffset f cur, count⟩
  set f1 : FeatureS :=
    { f with
      geoms := gs ++ [cur ++ [e]]
      verticesLen := f.verticesLen + count * f.size
      normalsLen := f.normalsLen.map fun _ => f.verticesLen + count * f.size } with hf1
  have hstride : (if f1.size = 3 then 3 else 2) = f.size := by
    rcases hsize with h | h <;> simp [hf1, h]
  have hroom : f1.pos + count * (if f1.size = 3 then 3 else 2) ≤ f1.verticesLen := by
    rw [hstride]
    simp [hf1, hpos, Nat.mul_comm]
  have hn1 : f1.normalsLen = none ∨ (f1.size = 3 ∧ f1.normalsLen = some f1.verticesLen) := by
    rcases hsize with h | h
    · left
      simp [hf1, hnorm, h]
    · right
      refine ⟨by simp [hf1, h], ?_⟩
      simp [hf1, hnorm, h]
  have hpush := pushN_of_room count f1 hroom hn1
  have hres : populateSub f count = { f1 with pos := f1.pos + count * (if f1.size = 3 then 3 else 2) } := by
    rw [populateSub, hstart]
    exact hpush
  rw [hres]
  have htc : totalCount { f1 with pos := f1.pos + count * (if f1.size = 3 then 3 else 2) }
      = totalCount f + count := by
    simp only [totalCount, hf1]
    rw [← totalCount_append_entry f gs cur e hg]
  refine ⟨⟨by simpa [hf1] using hsize, ?_, ?_, ?_⟩, by simp [hf1], by simp [hf1]⟩
  · simp [hf1, hstride, hpos, Nat.mul_comm]
  · rw [htc]
    simp only [hf1]
    rcases hsize with h | h <;> simp [h, hlen] <;> ring
  · rcases hsize with h | h <;> simp [hf1, h, hnorm, hstride]

/-- Binding a new geometry preserves the bookkeeping invariant and makes the
geometry list nonempty. -/
theorem bindNewGeometry_inv (f : FeatureS) (hInv : C1Inv f) :
    C1Inv (bindNewGeometry f) ∧ (bindNewGeometry f).geoms ≠ [] := by
  obtain ⟨hsize, hpos, hlen, hnorm⟩ := hInv
  refine ⟨⟨hsize, hpos, ?_, hnorm⟩, by simp [bindNewGeometry]⟩
  simpa [bindNewGeometry, totalCount, geomTotal] using hlen

theorem populateGeom_inv (f : FeatureS) (counts : List Nat) (hInv : C1Inv f) :
    C1Inv (populateGeom f counts) := by
  rw [populateGeom]
  obtain ⟨hb, hbne⟩ := bindNewGeometry_inv f hInv
  clear hInv
  generalize bindNewGeometry f = g at hb hbne
  induction counts generalizing g with
  | nil => simpa using hb
  | cons c cs ih =>
    obtain ⟨h1, h2, _⟩ := populateSub_inv g c hb hbne
    simpa using ih _ h1 h2

theorem mkFeature_inv (b : Bool) : C1Inv (mkFeature (collectionSize b)) := by
  cases b <;> simp [C1Inv, mkFeature, collectionSize, totalCount]

theorem populateFeature_inv (b : Bool) (blocks : List (List Nat)) :
    C1Inv (populateFeature (collectionSize b) blocks) := by
  rw [populateFeature]
  have h0 := mkFeature_inv b
  generalize mkFeature (collectionSize b) = g at h0
  induction blocks generalizing g with
  | nil => simpa using h0
  | cons c cs ih => simpa using ih _ (populateGeom_inv g c h0)

/-- C1. For every populated Feature, the packed buffer bookkeeping holds:
`vertices.length` equals `size` times the sum over all geometries of the
counts of their `SubGeometryIndex` entries, and `normals` is defined if and
only if `size == 3`, in which case `normals.length == vertices.length`
(maintained by `_extendBuffer` on every `startSubGeometry` and by the
`Feature` constructor). -/
theorem c1_buffer_size_and_normals_invariant (b : Bool) (blocks : List (List Nat)) :
    (populateFeature (collectionSize b) blocks).verticesLen =
        (populateFeature (collectionSize b) blocks).size *
          totalCount (populateFeature (collectionSize b) blocks) ∧
      ((populateFeature (collectionSize b) blocks).normalsLen.isSome ↔
        (populateFeature (collectionSize b) blocks).size = 3) ∧
      ((populateFeature (collectionSize b) blocks).size = 3 →
        (populateFeature (collectionSize b) blocks).normalsLen =
          some (populateFeature (collectionSize b) blocks).verticesLen) := by
  obtain ⟨hsize, hpos, hlen, hnorm⟩ := populateFeature_inv b blocks
  refine ⟨hlen, ?_, fun h3 => by simp [hnorm, h3]⟩
  constructor
  · intro hs
    by_contra h3
    simp [hnorm, h3] at hs
  · intro h3
    simp [hnorm, h3]

/-! Contiguity of `SubGeometryIndex` entries. -/

/-- Entries of a geometry's `indices` list are contiguous and ordered: each
entry starts where the previous one ends. -/
def Contiguous (idxs : List SubIdx) : Prop :=
  ∀ i a b, idxs[i]? = some a → idxs[i + 1]? = some b → a.offset + a.count = b.offset

theorem contiguous_nil : Contiguous [] := by
  intro i a b ha
  simp at ha

/-- Appending an entry that starts at the end of the last entry (when one
exists) preserves contiguity. -/
theorem contiguous_append (l : List SubIdx) (e : SubIdx) (hc : Contiguous l)
    (he : ∀ last, l.getLast? = some last → e.offset = last.offset + last.count) :
    Contiguous (l ++ [e]) := by
  intro i a b ha hb
  rcases Nat.lt_trichotomy (i + 1) l.length with h | h | h
  · have ha' : l[i]? = some a := by
      rw [List.getElem?_append_left (by omega)] at ha
      exact ha
    have hb' : l[i + 1]? = some b := by
      rw [List.getElem?_append_left h] at hb
      exact hb
    exact hc i a b ha' hb'
  · have hlpos : 0 < l.length := by omega
    have ha' : l[i]? = some a := by
      rw [List.getElem?_append_left (by omega)] at ha
      exact ha
    have hb' : b = e := by
      rw [h, getElem?_append_last] at hb
      exact (Option.some.injEq _ _ ▸ hb).symm
    have hlast : l.getLast? = some a := by
      rw [List.getLast?_eq_getElem? l]
      have hi : l.length - 1 = i := by omega
      rw [hi]
      exact ha'
    rw [hb', he a hlast]
  · exfalso
    have hnone : (l ++ [e])[i + 1]? = none := by
      apply List.getElem?_eq_none
      simp only [List.length_append, List.length_singleton]
      omega
    rw [hnone] at hb
    exact Option.noConfusion hb

/-- Every geometry of the feature has contiguous `indices`. -/
def AllContiguous (f : FeatureS) : Prop :=
  ∀ g ∈ f.geoms, Contiguous g

/-- Each population-phase call preserves contiguity of every geometry's
entries: both `startSubGeometry` and `closeSubGeometry` compute the new
offset as `last.offset + last.count` whenever a previous entry exists. -/
theorem applyOp_contiguous (f : FeatureS) (op : PopOp) (h : AllContiguous f) :
    AllContiguous (applyOp f op) := by
  have key : ∀ (gi count : Nat) (idxs : List SubIdx) (e : SubIdx),
      f.geoms[gi]? = some idxs →
      (∀ last, idxs.getLast? = some last → e.offset = last.offset + last.count) →
      ∀ g ∈ f.geoms.set gi (idxs ++ [e]), Contiguous g := by
    intro gi count idxs e hget he g hm
    rcases List.mem_or_eq_of_mem_set hm with hm | rfl
    · exact h g hm
    · have hmem : idxs ∈ f.geoms := by
        obtain ⟨hn, rfl⟩ := List.getElem?_eq_some.mp hget
        exact List.getElem_mem _
      exact contiguous_append idxs e (h idxs hmem) he
  cases op with
  | bind =>
    intro g hm
    simp only [applyOp, bindNewGeometry, List.mem_append, List.mem_singleton] at hm
    rcases hm with hm | rfl
    · exact h g hm
    · exact contiguous_nil
  | push =>
    intro g hm
    exact h g (by simpa [applyOp, pushValues] using hm)
  | start gi count =>
    simp only [applyOp, startSub]
    cases hget : f.geoms[gi]? with
    | none => exact h
    | some idxs =>
      intro g hm
      simp only [_extendBuffer] at hm
      refine key gi count idxs _ hget ?_ g hm
      intro last hlast
      simp [startOffset, hlast]
  | close gi count =>
    simp only [applyOp, closeSub]
    cases hget : f.geoms[gi]? with
    | none => exact h
    | some idxs =>
      intro g hm
      refine key gi count idxs _ hget ?_ g hm
      intro last hlast
      simp [hlast]

/-- C5. For every FeatureGeometry, after any sequence of
`startSubGeometry`/`closeSubGeometry` (and coordinate-push or
geometry-binding) calls, the `SubGeometryIndex` entries are contiguous and
ordered: for every `i`, `indices[i].offset + indices[i].count ==
indices[i+1].offset`. -/
theorem c5_subgeometry_entries_contiguous (b : Bool) (ops : List PopOp) :
    ∀ g ∈ (applyOps (mkFeature (collectionSize b)) ops).geoms, Contiguous g := by
  rw [applyOps]
  have h0 : AllContiguous (mkFeature (collectionSize b)) := by
    intro g hm
    simp [mkFeature] at hm
  generalize mkFeature (collectionSize b) = f at h0
  induction ops generalizing f with
  | nil => simpa using h0
  | cons op rest ih =>
    simpa using ih (applyOp f op) (applyOp_contiguous f op h0)

/-- Concrete run of `c5_subgeometry_entries_contiguous`, checking that the
hypotheses are satisfiable: one bound geometry, a started sub geometry of
three vertices and a closed one of two, has the contiguous entry list
`[{0, 3}, {3, 2}]`. -/
theorem c5_witness :
    Contiguous [⟨0, 3⟩, ⟨3, 2⟩] := by
  have happ : (applyOps (mkFeature (collectionSize false))
      [.bind, .start 0 3, .close 0 2]).geoms = [[⟨0, 3⟩, ⟨3, 2⟩]] := by decide
  exact c5_subgeometry_entries_contiguous false [.bind, .start 0 3, .close 0 2]
    [⟨0, 3⟩, ⟨3, 2⟩] (by rw [happ]; exact List.mem_singleton.mpr rfl)

/-! Line tessellation (`featureToLine`, multi-geometry branch). -/

/-- Data of one geometry as `featureToLine` reads it: `start` and `count` come
from `geometry.indices[0]`, and `styled` records whether
`drawingStylefromContext` returned a style (a falsy result makes the loop
`continue`). -/
structure LineGeom where
  start : Nat
  count : Nat
  styled : Bool
deriving DecidableEq, Repr

/-- Inner index-emission loop of `featureToLine`:
`for (let j = start; j < end - 1; j++) { if (j < 0xffff) { indices[i++] = j;
indices[i++] = j + 1; } else break; }`, with `fuel = end - 1 - start`
iterations remaining. -/
def emitEdgesFrom : Nat → Nat → List Nat
  | _, 0 => []
  | j, fuel + 1 =>
    if j < 0xffff then j :: (j + 1) :: emitEdgesFrom (j + 1) fuel else []

/-- Outer geometry loop of the multi-line branch of `featureToLine`: per
geometry, an unstyled geometry is skipped (`continue`); a geometry whose
start exceeds `0xffff` logs the overflow warning and breaks out of the whole
loop; otherwise the inner loop appends its edges. Returns the emitted index
values and whether the warning was logged. -/
def multiLineIndices : List LineGeom → List Nat × Bool
  | [] => ([], false)
  | g :: rest =>
    if g.styled = false then multiLineIndices rest
    else if 0xffff < g.start then ([], true)
    else
      let r := multiLineIndices rest
      (emitEdgesFrom g.start (g.count - 1) ++ r.1, r.2)

/-- Specification-side edge list of one line geometry: the edges `(i, i+1)`
for `i` in `[start, start+count-1)`, flattened. -/
def fullEdges (start count : Nat) : List Nat :=
  (List.range (count - 1)).flatMap fun k => [start + k, start + k + 1]

/-- When no index in the range would reach `0xffff`, the inner loop emits
every edge of the geometry. -/
theorem emitEdgesFrom_full (fuel : Nat) : ∀ j, j + fuel ≤ 0xffff →
    emitEdgesFrom j fuel = (List.range fuel).flatMap fun k => [j + k, j + k + 1] := by
  induction fuel with
  | zero => intro j _; rfl
  | succ fuel ih =>
    intro j hj
    have hlt : j < 0xffff := by omega
    rw [emitEdgesFrom, if_pos hlt, ih (j + 1) (by omega)]
    rw [List.range_succ_eq_map, List.flatMap_cons, List.flatMap_map]
    have harg : (fun k => [j + 1 + k, j + 1 + k + 1]) =
        fun k => [j + Nat.succ k, j + Nat.succ k + 1] := by
      funext k
      simp only [List.cons.injEq, and_true]
      omega
    rw [harg]
    rfl

/-- The inner loop never writes an index value above `0xffff`. -/
theorem emitEdgesFrom_le (fuel : Nat) : ∀ j, ∀ x ∈ emitEdgesFrom j fuel, x ≤ 0xffff := by
  induction fuel with
  | zero => intro j x hx; simp [emitEdgesFrom] at hx
  | succ fuel ih =>
    intro j x hx
    rw [emitEdgesFrom] at hx
    by_cases hlt : j < 0xffff
    · rw [if_pos hlt] at hx
      rcases hx with _ | ⟨_, hx⟩
      · omega
      rcases hx with _ | ⟨_, hx⟩
      · omega
      · exact ih (j + 1) x hx
    · rw [if_neg hlt] at hx
      simp at hx

/-- Exact number of index values the inner loop emits: two per edge, the
edge count being cut off at index `0xffff`. -/
theorem emitEdgesFrom_length (fuel : Nat) :
    ∀ j, (emitEdgesFrom j fuel).length = 2 * min fuel (0xffff - j) := by
  induction fuel with
  | zero => intro j; simp [emitEdgesFrom]
  | succ fuel ih =>
    intro j
    rw [emitEdgesFrom]
    by_cases hlt : j < 0xffff
    · rw [if_pos hlt]
      simp only [List.length_cons, ih (j + 1)]
      omega
    · rw [if_neg hlt]
      simp only [List.length_nil]
      omega

/-- Step equation of the outer loop for a styled geometry within the index
range. -/
theorem multiLine_cons_ok (g : LineGeom) (rest : List LineGeom)
    (h1 : g.styled = true) (h2 : g.start ≤ 0xffff) :
    multiLineIndices (g :: rest) =
      (emitEdgesFrom g.start (g.count - 1) ++ (multiLineIndices rest).1,
        (multiLineIndices rest).2) := by
  rw [multiLineIndices, if_neg (by simp [h1]), if_neg (by omega)]

/-- No emitted index value exceeds `0xffff`. -/
theorem multiLine_le (gs : List LineGeom) :
    ∀ x ∈ (multiLineIndices gs).1, x ≤ 0xffff := by
  induction gs with
  | nil => intro x hx; simp [multiLineIndices] at hx
  | cons g rest ih =>
    intro x hx
    rw [multiLineIndices] at hx
    by_cases hs : g.styled = false
    · rw [if_pos hs] at hx
      exact ih x hx
    · rw [if_neg hs] at hx
      by_cases ho : 0xffff < g.start
      · rw [if_pos ho] at hx
        simp at hx
      · rw [if_neg ho] at hx
        simp only [List.mem_append] at hx
        rcases hx with hx | hx
        · exact emitEdgesFrom_le _ _ x hx
        · exact ih x hx

/-- As long as no geometry start exceeds `0xffff`, the overflow warning is not
logged, even when the inner loop truncates edges. -/
theorem multiLine_no_warn (gs : List LineGeom)
    (h : ∀ g ∈ gs, g.start ≤ 0xffff) : (multiLineIndices gs).2 = false := by
  induction gs with
  | nil => rfl
  | cons g rest ih =>
    rw [multiLineIndices]
    by_cases hs : g.styled = false
    · rw [if_pos hs]
      exact ih fun g hm => h g (List.mem_cons_of_mem _ hm)
    · rw [if_neg hs, if_neg (by have := h g (List.mem_cons_self g rest); omega)]
      exact ih fun g hm => h g (List.mem_cons_of_mem _ hm)

/-- A styled geometry whose start exceeds `0xffff` stops the whole loop with
the warning and no further edges. -/
theorem multiLine_stop (g : LineGeom) (rest : List LineGeom)
    (h1 : g.styled = true) (h2 : 0xffff < g.start) :
    multiLineIndices (g :: rest) = ([], true) := by
  rw [multiLineIndices, if_neg (by simp [h1]), if_pos h2]

/-- Every index of a geometry's full edge list stays inside that geometry's
own vertex range. -/
theorem fullEdges_mem_range (start count x : Nat) (hx : x ∈ fullEdges start count) :
    start ≤ x ∧ x < start + count := by
  rw [fullEdges] at hx
  obtain ⟨k, hk, hxk⟩ := List.mem_flatMap.mp hx
  rw [List.mem_range] at hk
  rcases hxk with _ | ⟨_, hxk⟩
  · omega
  rcases hxk with _ | ⟨_, hxk⟩
  · omega
  · cases hxk

/-- C2. For every Feature of type LINE holding two or more geometries,
`featureToLine` emits, for each geometry's first `SubGeometryIndex` range
`[start, start+count)`, exactly the edges `(i, i+1)` for `i` in
`[start, start+count-1)`, and never an edge connecting two distinct
geometries (every emitted index stays inside its own geometry's range); in
particular a Feature with 2 disjoint 3-point line geometries yields exactly
4 edges (8 index values), with no fifth edge joining the geometries. -/
theorem c2_multiline_disconnected_edges (gs : List LineGeom)
    (_hlen : 2 ≤ gs.length)
    (hstyled : ∀ g ∈ gs, g.styled = true)
    (hstart : ∀ g ∈ gs, g.start ≤ 0xffff)
    (hfit : ∀ g ∈ gs, g.start + g.count ≤ 0x10000) :
    (multiLineIndices gs).1 = (gs.map fun g => fullEdges g.start g.count).flatten ∧
      (∀ g ∈ gs, ∀ x ∈ fullEdges g.start g.count, g.start ≤ x ∧ x < g.start + g.count) ∧
      multiLineIndices [⟨0, 3, true⟩, ⟨3, 3, true⟩] = ([0, 1, 1, 2, 3, 4, 4, 5], false) := by
  refine ⟨?_, fun g _ x hx => fullEdges_mem_range g.start g.count x hx, by decide⟩
  clear _hlen
  induction gs with
  | nil => rfl
  | cons g rest ih =>
    have hg := hstyled g (List.mem_cons_self g rest)
    have hs := hstart g (List.mem_cons_self g rest)
    have hf := hfit g (List.mem_cons_self g rest)
    rw [multiLine_cons_ok g rest hg hs, List.map_cons, List.flatten_cons]
    have hedges : emitEdgesFrom g.start (g.count - 1) = fullEdges g.start g.count := by
      rw [fullEdges, emitEdgesFrom_full (g.count - 1) g.start (by omega)]
    rw [hedges, ih (fun x hm => hstyled x (List.mem_cons_of_mem _ hm))
      (fun x hm => hstart x (List.mem_cons_of_mem _ hm))
      (fun x hm => hfit x (List.mem_cons_of_mem _ hm))]

/-- Concrete run of `c2_multiline_disconnected_edges` on the two disjoint
3-point geometries, discharging its hypotheses. -/
theorem c2_witness :
    (multiLineIndices [⟨0, 3, true⟩, ⟨3, 3, true⟩]).1 =
      (([⟨0, 3, true⟩, ⟨3, 3, true⟩] : List LineGeom).map fun g =>
        fullEdges g.start g.count).flatten :=
  (c2_multiline_disconnected_edges [⟨0, 3, true⟩, ⟨3, 3, true⟩]
    (by decide) (by decide) (by decide) (by decide)).1

/-- C3 (amended). For every LINE Feature whose vertex indices reach the
16-bit limit, the engine stops emitting further edges: the inner loop stops
the current geometry, silently, once an index would exceed `0xffff`
(truncating its edge count at index `0xffff`), and once a geometry's start
offset exceeds `0xffff` the engine logs the warning and stops all remaining
geometries; no emitted index value ever exceeds `0xffff`. The warning is
only logged by the start-offset check, so an overflow confined to the last
geometry produces a partial primitive without a warning. -/
theorem c3_line_index_overflow_behavior :
    (∀ gs : List LineGeom, ∀ x ∈ (multiLineIndices gs).1, x ≤ 0xffff) ∧
      (∀ (g : LineGeom) (rest : List LineGeom), g.styled = true → 0xffff < g.start →
        multiLineIndices (g :: rest) = ([], true)) ∧
      (∀ j fuel, (emitEdgesFrom j fuel).length = 2 * min fuel (0xffff - j)) ∧
      (∀ gs : List LineGeom, (∀ g ∈ gs, g.start ≤ 0xffff) →
        (multiLineIndices gs).2 = false) :=
  ⟨multiLine_le, multiLine_stop, fun j fuel => emitEdgesFrom_length fuel j,
    multiLine_no_warn⟩

/-- Concrete run of `c3_line_index_overflow_behavior`: a styled geometry
starting past the limit stops the loop with the warning. -/
theorem c3_witness : multiLineIndices [⟨70000, 5, true⟩] = ([], true) :=
  c3_line_index_overflow_behavior.2.1 ⟨70000, 5, true⟩ [] rfl (by norm_num)

/-- C3 counterexample. A LINE Feature of two styled geometries, ranges
`[0, 3)` and `[3, 70003)`, reaches the 16-bit limit inside its last
geometry: only `2 + 65532` of the `2 + 69999` edges are emitted
(`131068 < 140002` index values), yet the warning flag is false — the claim
that the engine always logs a warning when the limit is reached fails. -/
theorem c3_counterexample :
    (multiLineIndices [⟨0, 3, true⟩, ⟨3, 70000, true⟩]).2 = false ∧
      (multiLineIndices [⟨0, 3, true⟩, ⟨3, 70000, true⟩]).1.length = 131068 ∧
      131068 < 2 * (2 + 69999) := by
  refine ⟨multiLine_no_warn _ (by decide), ?_, by norm_num⟩
  rw [multiLine_cons_ok _ _ rfl (by norm_num), multiLine_cons_ok _ _ rfl (by norm_num)]
  show (emitEdgesFrom 0 (3 - 1) ++ (emitEdgesFrom 3 (70000 - 1) ++
    (multiLineIndices []).1)).length = 131068
  rw [List.length_append, List.length_append, emitEdgesFrom_length,
    emitEdgesFrom_length]
  norm_num [multiLineIndices]

/-! Extruded polygon tessellation (`featureToExtrudedPolygon` and
`addExtrudedPolygonSideFaces`). -/

/-- The six index values one contour point contributes to the side walls: two
triangles over the quad `{i, i+1, i+L, i+L+1}`, ordered by the winding
direction, exactly as the two branches of the source loop write them. -/
def quadIndices (i L : Nat) (isClockWise : Bool) : List Nat :=
  if isClockWise then [i, i + L, i + 1, i + 1, i + L, i + L + 1]
  else [i + L, i, i + L + 1, i + L + 1, i, i + 1]

/-- Source `addExtrudedPolygonSideFaces(indices, length, offset, count,
isClockWise)`: appends `(count - 1) * 6` index values, six per contour point
`i` in `[offset, offset + count - 1)`. (For `count = 0` the source would
shrink the array by six slots; every populated ring has at least one
vertex.) -/
def addExtrudedPolygonSideFaces (ind : List Nat) (L offset count : Nat)
    (cw : Bool) : List Nat :=
  ind ++ (List.range (count - 1)).flatMap fun k => quadIndices (offset + k) L cw

/-- Start offset of a geometry: `geometry.indices[0].offset` (a populated
geometry always has a first entry). -/
def geomStart (g : List SubIdx) : Nat :=
  match g.head? with
  | some s => s.offset
  | none => 0

/-- Index generation of `featureToExtrudedPolygon` for one geometry: the
earcut triangles of the roof translated by `startTop = start + totalVertices`,
then the side faces of every ring (contour and holes). The triangulation
collaborator is an opaque parameter. -/
def extrudedGeomStep (totalVertices : Nat) (tri : List SubIdx → List Nat)
    (cw : Bool) (acc : List Nat) (g : List SubIdx) : List Nat :=
  let startTop := geomStart g + totalVertices
  let acc2 := acc ++ (tri g).map (· + startTop)
  g.foldl (fun a r => addExtrudedPolygonSideFaces a totalVertices r.offset r.count cw) acc2

/-- Vertex-buffer length (`new Float32Array(ptsIn.length * 2)`) and index list
produced by `featureToExtrudedPolygon`; `ptsInLen` is `feature.vertices.length`
and `totalVertices = ptsIn.length / 3`. -/
def featureToExtrudedPolygonIdx (ptsInLen : Nat) (geoms : List (List SubIdx))
    (tri : List SubIdx → List Nat) (cw : Bool) : Nat × List Nat :=
  (ptsInLen * 2, geoms.foldl (extrudedGeomStep (ptsInLen / 3) tri cw) [])

theorem quadIndices_length (i L : Nat) (cw : Bool) : (quadIndices i L cw).length = 6 := by
  cases cw <;> simp [quadIndices]

/-- Exact growth of the index array by one ring's side faces. -/
theorem sideFaces_length (ind : List Nat) (L offset count : Nat) (cw : Bool) :
    (addExtrudedPolygonSideFaces ind L offset count cw).length =
      ind.length + (count - 1) * 6 := by
  rw [addExtrudedPolygonSideFaces, List.length_append, List.length_flatMap]
  congr 1
  have h : List.map (List.length ∘ fun k => quadIndices (offset + k) L cw)
      (List.range (count - 1)) = List.map (fun _ => 6) (List.range (count - 1)) :=
    List.map_congr_left fun k _ => quadIndices_length (offset + k) L cw
  rw [h, List.map_const', List.sum_replicate, List.length_range]
  simp

/-- Each side-face index value belongs to the quad of one contour point: a
floor vertex `i` or `i+1`, or its roof counterpart `i + L` or `i + 1 + L`. -/
theorem quadIndices_mem (i L x : Nat) (cw : Bool) (hx : x ∈ quadIndices i L cw) :
    x ∈ [i, i + 1, i + L, i + 1 + L] := by
  cases cw <;> simp [quadIndices] at hx ⊢ <;> omega

/-- Folding the side faces of all rings of one geometry grows the index array
by the sum of the per-ring contributions. -/
theorem sideFaces_fold_length (g : List SubIdx) (acc : List Nat) (L : Nat) (cw : Bool) :
    (g.foldl (fun a r => addExtrudedPolygonSideFaces a L r.offset r.count cw) acc).length
      = acc.length + (g.map fun r => (r.count - 1) * 6).sum := by
  induction g generalizing acc with
  | nil => simp
  | cons r rs ih =>
    rw [List.foldl_cons, ih, sideFaces_length, List.map_cons, List.sum_cons]
    omega

/-- C4. For every ring (outer or hole) of an extruded polygon geometry with
`count` vertices at buffer positions `[offset, offset+count)`, the engine
appends exactly `(count-1)*6` side-wall indices — `count-1` quads of two
triangles each — each index drawn from the quad of floor vertices `i`, `i+1`
and roof vertices `i + totalVertexCount`, `i+1 + totalVertexCount`; for the
unit-square scenario (ring of 5 vertices with the closing vertex) this gives
24 side indices, and the extruded vertex buffer doubles the input buffer. -/
theorem c4_extruded_side_faces (ind : List Nat) (L offset count : Nat) (cw : Bool)
    (_hcount : 1 ≤ count) :
    (addExtrudedPolygonSideFaces ind L offset count cw).length =
        ind.length + (count - 1) * 6 ∧
      (addExtrudedPolygonSideFaces ind L offset count cw).take ind.length = ind ∧
      (∀ x ∈ (addExtrudedPolygonSideFaces ind L offset count cw).drop ind.length,
        ∃ k, k < count - 1 ∧
          x ∈ [offset + k, offset + k + 1, offset + k + L, offset + k + 1 + L]) ∧
      (addExtrudedPolygonSideFaces [] L 0 5 cw).length = 24 ∧
      (∀ (p : Nat) (gs : List (List SubIdx)) (tri : List SubIdx → List Nat),
        (featureToExtrudedPolygonIdx p gs tri cw).1 = 2 * p) := by
  refine ⟨sideFaces_length ind L offset count cw, ?_, ?_, ?_, ?_⟩
  · rw [addExtrudedPolygonSideFaces, List.take_left]
  · intro x hx
    rw [addExtrudedPolygonSideFaces, List.drop_left] at hx
    obtain ⟨k, hk, hxk⟩ := List.mem_flatMap.mp hx
    exact ⟨k, List.mem_range.mp hk, quadIndices_mem (offset + k) L x cw hxk⟩
  · rw [sideFaces_length]
    norm_num
  · intro p gs tri
    rw [featureToExtrudedPolygonIdx, Nat.mul_comm]

/-- Concrete run of `c4_extruded_side_faces` on the unit-square ring:
5 vertices, one ring starting at offset 0, 10 total vertices, producing
24 side indices. -/
theorem c4_witness :
    (addExtrudedPolygonSideFaces [] 5 0 5 true).length = ([] : List Nat).length + (5 - 1) * 6 :=
  (c4_extruded_side_faces [] 5 0 5 true (by norm_num)).1

/-! FeatureCollection identity policy (`requestFeature`, `requestFeatureByType`,
`requestFeatureById`). -/

/-- The three feature types of `FEATURE_TYPES` (POINT 0, LINE 1, POLYGON 2);
the `Feature` constructor throws on any other value, so only these three are
representable. -/
inductive FType where
  | point : FType
  | line : FType
  | polygon : FType
deriving DecidableEq, Repr

/-- Identity-relevant data of a `Feature` object: `fid` models the JavaScript
object identity (each `new Feature` allocation gets a fresh one), `ftype` is
`feature.type`, and `idField` is `feature.id` — a field the `Feature`
constructor never assigns, modelled as `Option` with `none` for
`undefined`. -/
structure FeatureR where
  fid : Nat
  ftype : FType
  idField : Option Nat
deriving DecidableEq, Repr

/-- Identity-relevant state of a `FeatureCollection`: the merge flag, the
`features` array, and an allocation counter providing fresh object
identities. -/
structure CollectionS where
  mergeFeatures : Bool
  features : List FeatureR
  nextId : Nat
deriving DecidableEq, Repr

/-- The `else` branch of `requestFeature`: `new Feature(type, this)` (which
never sets `id`) followed by `this.features.push(newFeature)`. -/
def allocPush (c : CollectionS) (t : FType) : FeatureR × CollectionS :=
  let nf : FeatureR := ⟨c.nextId, t, none⟩
  (nf, { c with features := c.features ++ [nf], nextId := c.nextId + 1 })

/-- Source `FeatureCollection.requestFeature(type, callback)`:
`const feature = this.features.find(callback); if (feature &&
this.mergeFeatures) return feature; else allocate and push`. -/
def requestFeature (c : CollectionS) (t : FType) (pred : FeatureR → Bool) :
    FeatureR × CollectionS :=
  match c.features.find? pred with
  | some f => if c.mergeFeatures then (f, c) else allocPush c t
  | none => allocPush c t

/-- Source `requestFeatureByType(type)`: predicate `feature.type === type`. -/
def requestFeatureByType (c : CollectionS) (t : FType) : FeatureR × CollectionS :=
  requestFeature c t fun f => f.ftype == t

/-- Source `requestFeatureById(id, type)`: predicate `feature.id === id` — the
`type` argument is not part of the predicate. -/
def requestFeatureById (c : CollectionS) (id : Option Nat) (t : FType) :
    FeatureR × CollectionS :=
  requestFeature c t fun f => f.idField == id

/-- With the merge flag off, `requestFeature` always allocates and pushes. -/
theorem requestFeature_no_merge (c : CollectionS) (t : FType) (pred : FeatureR → Bool)
    (h : c.mergeFeatures = false) : requestFeature c t pred = allocPush c t := by
  rw [requestFeature]
  cases c.features.find? pred with
  | none => rfl
  | some f => rw [h]; rfl

/-- C6. With `mergeFeatures = true`, two successive
`requestFeatureByType(POLYGON)` calls on the same FeatureCollection return
the identical Feature instance (and leave the collection unchanged between
the calls); with `mergeFeatures = false`, every `requestFeatureByType` call
allocates and appends a new distinct Feature. -/
theorem c6_merge_policy (c : CollectionS) :
    (c.mergeFeatures = true →
      (requestFeatureByType (requestFeatureByType c .polygon).2 .polygon).1 =
          (requestFeatureByType c .polygon).1 ∧
        (requestFeatureByType (requestFeatureByType c .polygon).2 .polygon).2 =
          (requestFeatureByType c .polygon).2) ∧
      (c.mergeFeatures = false →
        (requestFeatureByType c .polygon).1.fid = c.nextId ∧
          (requestFeatureByType (requestFeatureByType c .polygon).2 .polygon).1.fid =
            c.nextId + 1 ∧
          (requestFeatureByType c .polygon).1 ≠
            (requestFeatureByType (requestFeatureByType c .polygon).2 .polygon).1 ∧
          (requestFeatureByType (requestFeatureByType c .polygon).2 .polygon).2.features =
            c.features ++ [(requestFeatureByType c .polygon).1,
              (requestFeatureByType (requestFeatureByType c .polygon).2 .polygon).1]) := by
  constructor
  · intro hm
    cases hfind : c.features.find? (fun f => f.ftype == FType.polygon) with
    | some f =>
      have h1 : requestFeatureByType c .polygon = (f, c) := by
        rw [requestFeatureByType, requestFeature, hfind, hm]
        rfl
      constructor <;> simp [h1]
    | none =>
      have h1 : requestFeatureByType c .polygon = allocPush c .polygon := by
        rw [requestFeatureByType, requestFeature, hfind]
      have hf2 : (allocPush c FType.polygon).2.features.find?
          (fun f => f.ftype == FType.polygon)
          = some { fid := c.nextId, ftype := FType.polygon, idField := none } := by
        have happ : (allocPush c FType.polygon).2.features
            = c.features ++ [{ fid := c.nextId, ftype := FType.polygon, idField := none }] :=
          rfl
        rw [happ, List.find?_append, hfind]
        rfl
      have h2 : requestFeatureByType (allocPush c .polygon).2 .polygon =
          (({ fid := c.nextId, ftype := .polygon, idField := none } : FeatureR),
            (allocPush c .polygon).2) := by
        rw [requestFeatureByType, requestFeature, hf2,
          show (allocPush c FType.polygon).2.mergeFeatures = true from hm]
        rfl
      rw [h1, h2]
      exact ⟨rfl, rfl⟩
  · intro hm
    rw [requestFeatureByType, requestFeature_no_merge c _ _ hm,
      requestFeatureByType, requestFeature_no_merge (allocPush c .polygon).2 _ _ hm]
    refine ⟨rfl, rfl, ?_, by simp [allocPush]⟩
    intro heq
    have : c.nextId = c.nextId + 1 := congrArg FeatureR.fid heq
    omega

/-- Concrete run of `c6_merge_policy` with an empty merging collection: the
second request returns the very feature the first request allocated. -/
theorem c6_witness :
    (requestFeatureByType (requestFeatureByType ⟨true, [], 0⟩ .polygon).2 .polygon).1 =
      (requestFeatureByType (⟨true, [], 0⟩ : CollectionS) .polygon).1 :=
  ((c6_merge_policy ⟨true, [], 0⟩).1 rfl).1

/-- C10 (implicit). For every `id` that is not `undefined`,
`requestFeatureById(id, type)` never returns an existing Feature — its
predicate compares only `feature.id` (a field no Feature ever sets) and
ignores the `type` argument — so even with `mergeFeatures = true` it always
allocates and appends a new Feature of the given type. -/
theorem c10_request_by_id_always_allocates (c : CollectionS) (v : Nat) (t : FType)
    (hids : ∀ f ∈ c.features, f.idField = none)
    (hfresh : ∀ f ∈ c.features, f.fid < c.nextId) :
    (requestFeatureById c (some v) t).1 = ⟨c.nextId, t, none⟩ ∧
      (requestFeatureById c (some v) t).2.features =
        c.features ++ [(requestFeatureById c (some v) t).1] ∧
      (requestFeatureById c (some v) t).1 ∉ c.features := by
  have hnone : c.features.find? (fun f => f.idField == some v) = none := by
    rw [List.find?_eq_none]
    intro f hf
    rw [hids f hf]
    simp
  rw [requestFeatureById, requestFeature, hnone]
  refine ⟨rfl, rfl, ?_⟩
  intro hmem
  have := hfresh _ hmem
  simp [allocPush] at this

/-- Concrete run of `c10_request_by_id_always_allocates`: a merging collection
already holding a POINT feature still allocates a fresh LINE feature for
`requestFeatureById(7, LINE)`. -/
theorem c10_witness :
    (requestFeatureById ⟨true, [⟨0, .point, none⟩], 1⟩ (some 7) .line).1 =
      ⟨1, FType.line, none⟩ :=
  (c10_request_by_id_always_allocates ⟨true, [⟨0, .point, none⟩], 1⟩ 7 .line
    (by decide) (by decide)).1

/-! Reference features (`newFeatureByReference`). -/

/-- Heap-reference view of a `Feature`: each mutable member (`vertices`,
`normals`, `geometries`, `extent`, `style`) is a reference (cell number)
into a heap, so that sharing-by-reference is the equality of cell numbers.
`normals` and `extent` are optional, as in the constructor. -/
structure FeatureRefs where
  ftype : FType
  size : Nat
  verticesRef : Nat
  normalsRef : Option Nat
  geometriesRef : Nat
  extentRef : Option Nat
  styleRef : Nat
  pos : Nat
deriving DecidableEq, Repr

/-- The `Feature` constructor allocates fresh cells for `vertices`,
`geometries`, `style`, plus `normals` when the collection size is 3 and
`extent` when the collection builds extents; `ctr` is the next free cell. -/
def mkFeatureRefs (t : FType) (csize : Nat) (hasExtent : Bool) (ctr : Nat) :
    FeatureRefs × Nat :=
  ({ ftype := t
     size := csize
     verticesRef := ctr
     normalsRef := if csize = 3 then some (ctr + 1) else none
     geometriesRef := ctr + 2
     extentRef := if hasExtent then some (ctr + 3) else none
     styleRef := ctr + 4
     pos := 0 }, ctr + 5)

/-- Source `FeatureCollection.newFeatureByReference(feature)`:
`const ref = new Feature(feature.type, this); ref.extent = feature.extent;
ref.geometries = feature.geometries; ref.normals = feature.normals;
ref.size = feature.size; ref.vertices = feature.vertices;
ref._pos = feature._pos;` — every listed member is reassigned to the source
object itself; `style` keeps the fresh object made by the constructor. -/
def newFeatureByReference (src : FeatureRefs) (csize : Nat) (hasExtent : Bool)
    (ctr : Nat) : FeatureRefs × Nat :=
  let r := mkFeatureRefs src.ftype csize hasExtent ctr
  ({ r.1 with
      extentRef := src.extentRef
      geometriesRef := src.geometriesRef
      normalsRef := src.normalsRef
      size := src.size
      verticesRef := src.verticesRef
      pos := src.pos }, r.2)

/-- Heap write to an extent cell (a mutation such as `extent.union(...)` seen
abstractly: the stored value of the cell changes). -/
def writeExt (s : Nat → Int) (r : Nat) (v : Int) : Nat → Int :=
  fun q => if q = r then v else s q

/-- C8 counterexample. With a concrete source feature (cells 0..4) and a
reference feature made from it, the two `extent` members are the same heap
cell (cell 3): writing value 99 through the reference's extent cell makes
the source's extent read 99 instead of its old value 0 — the claim that the
referencing feature's extent is independent of the source's fails. -/
theorem c8_counterexample :
    (newFeatureByReference (mkFeatureRefs .polygon 2 true 0).1 2 true 5).1.extentRef =
        (mkFeatureRefs .polygon 2 true 0).1.extentRef ∧
      (mkFeatureRefs .polygon 2 true 0).1.extentRef = some 3 ∧
      writeExt (fun _ => 0) 3 99 3 = 99 ∧
      (fun _ => (0 : Int)) 3 = 0 := by
  refine ⟨rfl, rfl, ?_, rfl⟩
  simp [writeExt]

/-- C8 (amended). For every Feature, `newFeatureByReference` returns a new
Feature whose `vertices`, `normals`, `geometries` — and also `extent` —
alias (are the very same objects as) the source Feature's, and whose `_pos`
is copied; only `style` is a fresh object, so mutating the reference's style
leaves the source's style unchanged, while mutating the reference's extent
is seen through the source's extent. -/
theorem c8_reference_aliasing (src : FeatureRefs) (csize : Nat) (hasExtent : Bool)
    (ctr : Nat) (hfresh : src.styleRef < ctr) :
    (newFeatureByReference src csize hasExtent ctr).1.verticesRef = src.verticesRef ∧
      (newFeatureByReference src csize hasExtent ctr).1.normalsRef = src.normalsRef ∧
      (newFeatureByReference src csize hasExtent ctr).1.geometriesRef =
        src.geometriesRef ∧
      (newFeatureByReference src csize hasExtent ctr).1.extentRef = src.extentRef ∧
      (newFeatureByReference src csize hasExtent ctr).1.pos = src.pos ∧
      (newFeatureByReference src csize hasExtent ctr).1.styleRef ≠ src.styleRef ∧
      (∀ (s : Nat → Int) (e : Nat) (v : Int),
        src.extentRef = some e →
        writeExt s e v ((((newFeatureByReference src csize hasExtent ctr).1.extentRef).getD 0)) = v) := by
  refine ⟨rfl, rfl, rfl, rfl, rfl, ?_, ?_⟩
  · show ctr + 4 ≠ src.styleRef
    omega
  · intro s e v he
    show writeExt s e v ((src.extentRef).getD 0) = v
    rw [he]
    simp [writeExt]

/-- Concrete run of `c8_reference_aliasing` on the counterexample layout. -/
theorem c8_witness :
    (newFeatureByReference (mkFeatureRefs .polygon 2 true 0).1 2 true 5).1.styleRef ≠
      (mkFeatureRefs .polygon 2 true 0).1.styleRef :=
  (c8_reference_aliasing (mkFeatureRefs .polygon 2 true 0).1 2 true 5
    (by norm_num [mkFeatureRefs])).2.2.2.2.2.1

/-! Mesh dispatch (`featureToMesh`) and determinism. -/

/-- Kinds of render primitive the conversion can produce. `emptyMesh` is the
fallback `mesh = mesh || new THREE.Mesh()` placeholder. -/
inductive MeshKind where
  | emptyMesh : MeshKind
  | pointsCloud : MeshKind
  | lineSegments : MeshKind
  | lineStrip : MeshKind
  | flatPoly : MeshKind
  | extrudedPoly : MeshKind
deriving DecidableEq, Repr

/-- Index list of `featureToPolygon`: per geometry, stop (`break`) when
`geometry.indices[0].offset > 0xffff`, otherwise append the earcut triangles
translated by `+ start`. -/
def featureToPolygonIdx : List (List SubIdx) → (List SubIdx → List Nat) → List Nat
  | [], _ => []
  | g :: rest, tri =>
    if 0xffff < geomStart g then []
    else (tri g).map (· + geomStart g) ++ featureToPolygonIdx rest tri

/-- Source `randomColor()`: `new THREE.Color(Math.random() * 0xffffff)`,
with the `Math.random` stream modelled as an explicit function of the call
index. -/
def randomColor (rng : Nat → Nat) (callIdx : Nat) : Nat :=
  rng callIdx % 0x1000000

/-- Per-geometry color fills of `featureToPoint`
(`getProperty('color', options, randomColor, ...)`): the option color when
supplied, otherwise one fresh `randomColor` draw per geometry. This is the
only consumer of the random stream in the module. -/
def featureToPointColors (rng : Nat → Nat) (colorOpt : Option Nat)
    (gs : List SubIdx) : List (Nat × Nat × Nat) :=
  gs.enum.map fun p =>
    (p.2.offset, p.2.count,
      match colorOpt with
      | some c => c
      | none => randomColor rng p.1)

/-- Inputs of `featureToMesh` that determine the produced primitive. -/
structure TessInput where
  ftype : FType
  hasVertices : Bool
  hasExtrusion : Bool
  lineGeoms : List LineGeom
  polyGeoms : List (List SubIdx)
  ptsInLen : Nat
  cw : Bool

/-- Source `featureToMesh(feature, options, context)`: returns `undefined`
without vertices; dispatches on `feature.type`. The POINT case has its
`featureToPoint` call commented out in the source, so `mesh` stays
`undefined` there and the `mesh || new THREE.Mesh()` fallback yields the
empty placeholder — `featureToPointColors`, the sole consumer of the random
stream, is never invoked. LINE features with several geometries produce a
`LineSegments` primitive with indices, a single styled geometry a `Line`
strip without an index buffer; POLYGON features produce an extruded mesh
exactly when `feature.style.fill.extrusion_height` is set, a flat mesh
otherwise. The random stream and the earcut collaborator are explicit
parameters. -/
def featureToMeshModel (rng : Nat → Nat) (tri : List SubIdx → List Nat)
    (f : TessInput) : Option (MeshKind × List Nat) :=
  if f.hasVertices = false then none
  else
    let mesh : Option (MeshKind × List Nat) :=
      match f.ftype with
      | .point => none
      | .line =>
        if 1 < f.lineGeoms.length then
          some (.lineSegments, (multiLineIndices f.lineGeoms).1)
        else
          match f.lineGeoms with
          | [] => none
          | g :: _ => if g.styled then some (.lineStrip, []) else none
      | .polygon =>
        if f.hasExtrusion then
          some (.extrudedPoly,
            (featureToExtrudedPolygonIdx f.ptsInLen f.polyGeoms tri f.cw).2)
        else some (.flatPoly, featureToPolygonIdx f.polyGeoms tri)
    some (mesh.getD (.emptyMesh, []))

/-- C7 counterexample. A POINT feature with vertices yields the empty
placeholder mesh, not a point-cloud primitive: the `featureToPoint` call in
the dispatch is commented out. -/
theorem c7_counterexample :
    featureToMeshModel (fun _ => 0) (fun _ => [])
        { ftype := .point, hasVertices := true, hasExtrusion := false,
          lineGeoms := [], polyGeoms := [], ptsInLen := 0, cw := false } =
      some (.emptyMesh, []) ∧
      MeshKind.emptyMesh ≠ MeshKind.pointsCloud := by
  exact ⟨rfl, by decide⟩

/-- C7 (amended). The tessellation dispatch over `Feature.type` produces a
line primitive for LINE features (a segment primitive when the feature holds
several geometries) and a flat or extruded mesh for POLYGON features
(extruded exactly when a fill extrusion height is configured) — but POINT
features produce the empty placeholder mesh, not a point cloud, because the
`featureToPoint` call is commented out of the dispatch. -/
theorem c7_dispatch (rng : Nat → Nat) (tri : List SubIdx → List Nat)
    (f : TessInput) (hv : f.hasVertices = true) :
    (f.ftype = .point → featureToMeshModel rng tri f = some (.emptyMesh, [])) ∧
      (f.ftype = .line → 1 < f.lineGeoms.length →
        featureToMeshModel rng tri f =
          some (.lineSegments, (multiLineIndices f.lineGeoms).1)) ∧
      (f.ftype = .polygon → f.hasExtrusion = true →
        featureToMeshModel rng tri f =
          some (.extrudedPoly,
            (featureToExtrudedPolygonIdx f.ptsInLen f.polyGeoms tri f.cw).2)) ∧
      (f.ftype = .polygon → f.hasExtrusion = false →
        featureToMeshModel rng tri f =
          some (.flatPoly, featureToPolygonIdx f.polyGeoms tri)) := by
  refine ⟨?_, ?_, ?_, ?_⟩
  · intro ht
    simp [featureToMeshModel, hv, ht]
  · intro ht hlen
    simp [featureToMeshModel, hv, ht, hlen]
  · intro ht hext
    simp [featureToMeshModel, hv, ht, hext]
  · intro ht hext
    simp [featureToMeshModel, hv, ht, hext]

/-- Concrete run of `c7_dispatch`: an extruded POLYGON feature.  -/
theorem c7_witness :
    featureToMeshModel (fun _ => 0) (fun _ => [])
        { ftype := .polygon, hasVertices := true, hasExtrusion := true,
          lineGeoms := [], polyGeoms := [[⟨0, 5⟩]], ptsInLen := 15, cw := true } =
      some (.extrudedPoly,
        (featureToExtrudedPolygonIdx 15 [[⟨0, 5⟩]] (fun _ => []) true).2) :=
  ((c7_dispatch (fun _ => 0) (fun _ => [])
      { ftype := .polygon, hasVertices := true, hasExtrusion := true,
        lineGeoms := [], polyGeoms := [[⟨0, 5⟩]], ptsInLen := 15, cw := true }
      rfl).2.2.1 rfl rfl)

/-- C9. For any two runs of the population-plus-tessellation pipeline on
identical input coordinate sequences, style values, and options, the
produced output buffers are identical: the dispatched conversion does not
read the random stream (its sole consumer, `featureToPoint`, is not invoked
by the dispatch), and the point-color fill itself is stream-independent as
soon as a color option is supplied. -/
theorem c9_pipeline_deterministic (r1 r2 : Nat → Nat)
    (tri : List SubIdx → List Nat) (f : TessInput) :
    featureToMeshModel r1 tri f = featureToMeshModel r2 tri f ∧
      (∀ (c : Nat) (gs : List SubIdx),
        featureToPointColors r1 (some c) gs = featureToPointColors r2 (some c) gs) :=
  ⟨rfl, fun _ _ => rfl⟩

end Itowns


